import Mathlib

/-!
Verification of the interstellar travel simulator (src/main.py) against its
specification.  The numeric model is embedded over exact rationals: every
Python float expression is translated term-for-term into `ℚ`, and Python's
`round(x, n)` is modelled as rounding half up at `n` decimal digits
(`pyRound`).  The single source of randomness, `np.random.shuffle`, is
abstracted by passing the already-permuted speed profile as an argument and
quantifying theorems over all permutations of the `linspace` output.
Divisions that can raise `ZeroDivisionError` in Python are guarded
explicitly, so the simulator returns `Except SimError MissionReport`.
-/

namespace InterstellarTravel

/-- src/main.py line 6: `SPEED_OF_LIGHT = 299792.458  # km/s`. -/
def SPEED_OF_LIGHT : ℚ := 299792.458

/-- src/main.py line 7: `LIGHT_YEAR_KM = 9.461e12`. -/
def LIGHT_YEAR_KM : ℚ := 9.461e12

/-- src/main.py line 8: `HUBBLE_CONSTANT = 70  # km/s/Mpc`. -/
def HUBBLE_CONSTANT : ℚ := 70

/-- src/main.py line 9: `MPC_TO_LY = 3.26156e6`. -/
def MPC_TO_LY : ℚ := 3.26156e6

/-- src/main.py lines 11–18: dataclass `TravelStage`. -/
structure TravelStage where
  stage_number : ℕ
  speed_percentage : ℚ
  distance_covered : ℚ
  time_elapsed : ℚ
  expansion_effect : ℚ
deriving Repr, DecidableEq

/-- src/main.py lines 20–29: dataclass `MissionReport`. -/
structure MissionReport where
  destination : String
  distance : ℚ
  mission_id : String
  stages : List TravelStage
  total_time : ℚ
  total_distance : ℚ
  expansion_addition : ℚ
deriving Repr, DecidableEq

/-- The exceptions the simulator can raise: the `ValueError` of line 55
(speed-range validation) and Python's `ZeroDivisionError` from any of the
divisions. -/
inductive SimError where
  | invalidSpeedRange
  | zeroDivisionError
deriving Repr, DecidableEq

/-- Python `round(x, n)` on exact rationals: round to `n` decimal digits,
halves rounding up (Mathlib's `round`). -/
def pyRound (n : ℕ) (x : ℚ) : ℚ := (round (x * 10 ^ n) : ℚ) / 10 ^ n

/-- `np.linspace(start, stop, num)` with the default `endpoint=True`:
`num` evenly spaced values from `start` to `stop` inclusive; a single
point degenerates to `[start]` (src/main.py line 58). -/
def linspace (start stop : ℚ) (num : ℕ) : List ℚ :=
  if num = 0 then []
  else if num = 1 then [start]
  else (List.range num).map (fun i : ℕ => start + (i : ℚ) * (stop - start) / ((num : ℚ) - 1))

/-- Mutable loop state of the stage loop (src/main.py lines 61–64). -/
structure SimState where
  stages : List TravelStage
  remaining_distance : ℚ
  total_time : ℚ
  total_actual_distance : ℚ
deriving Repr, DecidableEq

/-- Body of one loop iteration, src/main.py lines 66–80: returns
`(actual_distance, stage_time, expansion_factor)`.  The guards model
Python's `ZeroDivisionError`: `distance_ly / num_stages` with
`num_stages == 0` (unreachable inside the loop, kept for faithfulness)
and the divisions by `speed_km_s` / `speed_fraction` when the stage
speed is zero. -/
def stageCalc (distance_ly : ℚ) (num_stages : ℕ) (speed_pct : ℚ) :
    Except SimError (ℚ × ℚ × ℚ) :=
  if num_stages = 0 then .error .zeroDivisionError
  else if speed_pct = 0 then .error .zeroDivisionError
  else
    let speed_fraction := speed_pct / 100
    let speed_km_s := speed_fraction * SPEED_OF_LIGHT
    let stage_distance := distance_ly / (num_stages : ℚ)
    let distance_mpc := stage_distance / MPC_TO_LY
    let expansion_speed := HUBBLE_CONSTANT * distance_mpc
    let expansion_factor := 1 + expansion_speed / speed_km_s
    let actual_distance := stage_distance * expansion_factor
    let stage_time := actual_distance / speed_fraction
    .ok (actual_distance, stage_time, expansion_factor)

/-- The stage loop, src/main.py lines 66–94: iterates the (already
shuffled) speed profile with 1-based stage numbers, updating the
accumulators and appending one `TravelStage` record per stage. -/
def runStages (distance_ly : ℚ) (num_stages : ℕ) :
    List ℚ → ℕ → SimState → Except SimError SimState
  | [], _, st => .ok st
  | speed_pct :: rest, stage_num, st =>
    match stageCalc distance_ly num_stages speed_pct with
    | .error e => .error e
    | .ok (actual_distance, stage_time, expansion_factor) =>
      runStages distance_ly num_stages rest (stage_num + 1)
        ⟨st.stages ++ [⟨stage_num, pyRound 2 speed_pct, pyRound 2 actual_distance,
            pyRound 2 stage_time, pyRound 4 ((expansion_factor - 1) * 100)⟩],
         st.remaining_distance - distance_ly / (num_stages : ℚ),
         st.total_time + stage_time,
         st.total_actual_distance + actual_distance⟩

/-- src/main.py lines 31–107: `simulate_interstellar_travel`.  The
`speed_profile` argument is the result of `np.linspace` followed by
`np.random.shuffle` (lines 58–59); theorems quantify over all
permutations of `linspace min_speed max_speed num_stages`.  The final
guard models the `ZeroDivisionError` raised by
`total_actual_distance / distance_ly` when `distance_ly == 0`
(line 97). -/
def simulate_interstellar_travel (destination : String) (distance_ly : ℚ)
    (mission_id : String) (num_stages : ℕ) (min_speed max_speed : ℚ)
    (speed_profile : List ℚ) : Except SimError MissionReport :=
  if 0.1 ≤ min_speed ∧ min_speed ≤ max_speed ∧ max_speed ≤ 100 then
    match runStages distance_ly num_stages speed_profile 1 ⟨[], distance_ly, 0, 0⟩ with
    | .error e => .error e
    | .ok st =>
      if distance_ly = 0 then .error .zeroDivisionError
      else
        let expansion_impact := (st.total_actual_distance / distance_ly - 1) * 100
        .ok ⟨destination, distance_ly, mission_id, st.stages,
             pyRound 2 st.total_time, pyRound 2 st.total_actual_distance,
             pyRound 4 expansion_impact⟩
  else .error .invalidSpeedRange

/-- The expansion factor of a stage run at `speed_pct` percent of light
speed, as computed on src/main.py lines 74–76. -/
def expansionFactor (distance_ly : ℚ) (num_stages : ℕ) (speed_pct : ℚ) : ℚ :=
  1 + HUBBLE_CONSTANT * (distance_ly / (num_stages : ℚ) / MPC_TO_LY) /
        (speed_pct / 100 * SPEED_OF_LIGHT)

/-- The expansion-corrected distance of a stage, src/main.py line 77. -/
def actualDistance (distance_ly : ℚ) (num_stages : ℕ) (speed_pct : ℚ) : ℚ :=
  distance_ly / (num_stages : ℚ) * expansionFactor distance_ly num_stages speed_pct

/-- The time a stage takes, src/main.py line 80. -/
def stageTime (distance_ly : ℚ) (num_stages : ℕ) (speed_pct : ℚ) : ℚ :=
  actualDistance distance_ly num_stages speed_pct / (speed_pct / 100)

/-- The `TravelStage` record created for stage number `k` run at
`speed_pct`, src/main.py lines 88–94. -/
def mkStage (distance_ly : ℚ) (num_stages : ℕ) (k : ℕ) (speed_pct : ℚ) : TravelStage :=
  ⟨k, pyRound 2 speed_pct, pyRound 2 (actualDistance distance_ly num_stages speed_pct),
   pyRound 2 (stageTime distance_ly num_stages speed_pct),
   pyRound 4 ((expansionFactor distance_ly num_stages speed_pct - 1) * 100)⟩

/-- The list of stage records produced by the loop for a speed profile,
numbering stages from `k`. -/
def stagesOf (distance_ly : ℚ) (num_stages : ℕ) : ℕ → List ℚ → List TravelStage
  | _, [] => []
  | k, p :: rest => mkStage distance_ly num_stages k p :: stagesOf distance_ly num_stages (k + 1) rest

/-! ### Basic facts about `pyRound` -/

theorem round_sub_le (y : ℚ) : (round y : ℚ) - y ≤ 1 / 2 := by
  rw [round_eq]
  have h := Int.floor_le (y + 1 / 2)
  linarith

theorem neg_half_lt_round_sub (y : ℚ) : -(1 / 2) < (round y : ℚ) - y := by
  rw [round_eq]
  have h := Int.lt_floor_add_one (y + 1 / 2)
  linarith

theorem pyRound_sub_eq (n : ℕ) (x : ℚ) :
    pyRound n x - x = ((round (x * 10 ^ n) : ℚ) - x * 10 ^ n) / 10 ^ n := by
  have hpos : (0 : ℚ) < 10 ^ n := by positivity
  rw [pyRound, div_sub' _ _ _ (ne_of_gt hpos)]
  ring_nf

theorem pyRound_sub_le (n : ℕ) (x : ℚ) : pyRound n x - x ≤ 1 / (2 * 10 ^ n) := by
  have hpos : (0 : ℚ) < 10 ^ n := by positivity
  rw [pyRound_sub_eq]
  calc ((round (x * 10 ^ n) : ℚ) - x * 10 ^ n) / 10 ^ n
      ≤ (1 / 2) / 10 ^ n := by
        exact div_le_div_of_nonneg_right (round_sub_le (x * 10 ^ n)) hpos.le
    _ = 1 / (2 * 10 ^ n) := div_div 1 2 (10 ^ n)

theorem neg_lt_pyRound_sub (n : ℕ) (x : ℚ) : -(1 / (2 * 10 ^ n)) < pyRound n x - x := by
  have hpos : (0 : ℚ) < 10 ^ n := by positivity
  rw [pyRound_sub_eq]
  calc -(1 / (2 * 10 ^ n)) = (-(1 / 2)) / 10 ^ n := by
        rw [neg_div, div_div]
    _ < ((round (x * 10 ^ n) : ℚ) - x * 10 ^ n) / 10 ^ n := by
        exact div_lt_div_of_pos_right (neg_half_lt_round_sub (x * 10 ^ n)) hpos

theorem abs_pyRound_sub_le (n : ℕ) (x : ℚ) : |pyRound n x - x| ≤ 1 / (2 * 10 ^ n) := by
  rw [abs_le]
  exact ⟨le_of_lt (neg_lt_pyRound_sub n x), pyRound_sub_le n x⟩

/-! ### Characterizing the loop -/

theorem stageCalc_ok (d : ℚ) (n : ℕ) (p : ℚ) (hn : n ≠ 0) (hp : p ≠ 0) :
    stageCalc d n p = .ok (actualDistance d n p, stageTime d n p, expansionFactor d n p) := by
  simp only [stageCalc, if_neg hn, if_neg hp, actualDistance, stageTime, expansionFactor]

theorem runStages_eq (d : ℚ) (n : ℕ) (hn : n ≠ 0) :
    ∀ (l : List ℚ), (∀ p ∈ l, p ≠ 0) → ∀ (k : ℕ) (st : SimState),
    runStages d n l k st = .ok ⟨st.stages ++ stagesOf d n k l,
      st.remaining_distance - l.length * (d / n),
      st.total_time + (l.map (stageTime d n)).sum,
      st.total_actual_distance + (l.map (actualDistance d n)).sum⟩
  | [], _, k, st => by simp [runStages, stagesOf]
  | p :: rest, hl, k, st => by
    have hp : p ≠ 0 := hl p (List.mem_cons_self p rest)
    have hrest : ∀ q ∈ rest, q ≠ 0 := fun q hq => hl q (List.mem_cons_of_mem p hq)
    simp only [runStages, stageCalc_ok d n p hn hp]
    rw [runStages_eq d n hn rest hrest (k + 1)]
    simp only [stagesOf, Except.ok.injEq, SimState.mk.injEq, List.length_cons,
      List.map_cons, List.sum_cons]
    refine ⟨?_, ?_, ?_, ?_⟩
    · simp [mkStage, List.append_assoc]
    · push_cast
      ring
    · ring
    · ring

theorem simulate_ok (dest mid : String) (d : ℚ) (n : ℕ) (mn mx : ℚ)
    (profile : List ℚ)
    (hv : 0.1 ≤ mn ∧ mn ≤ mx ∧ mx ≤ 100) (hn : n ≠ 0) (hd : d ≠ 0)
    (hp : ∀ p ∈ profile, p ≠ 0) :
    simulate_interstellar_travel dest d mid n mn mx profile =
      .ok ⟨dest, d, mid, stagesOf d n 1 profile,
        pyRound 2 ((profile.map (stageTime d n)).sum),
        pyRound 2 ((profile.map (actualDistance d n)).sum),
        pyRound 4 (((profile.map (actualDistance d n)).sum / d - 1) * 100)⟩ := by
  rw [simulate_interstellar_travel, if_pos hv, runStages_eq d n hn profile hp 1]
  simp [if_neg hd]

/-! ### Facts about `linspace` -/

theorem linspace_length (a b : ℚ) (n : ℕ) : (linspace a b n).length = n := by
  by_cases h0 : n = 0
  · simp [linspace, h0]
  by_cases h1 : n = 1
  · simp [linspace, h1]
  · simp only [linspace, if_neg h0, if_neg h1, List.length_map, List.length_range]

theorem linspace_mem_le (a b : ℚ) (n : ℕ) (hab : a ≤ b) :
    ∀ p ∈ linspace a b n, a ≤ p := by
  intro p hp
  by_cases h0 : n = 0
  · subst h0
    simp [linspace] at hp
  by_cases h1 : n = 1
  · subst h1
    simp [linspace] at hp
    rw [hp]
  · have h2 : 2 ≤ n := by omega
    simp only [linspace, if_neg h0, if_neg h1, List.mem_map, List.mem_range] at hp
    obtain ⟨i, _, rfl⟩ := hp
    have hden : (0 : ℚ) < (n : ℚ) - 1 := by
      have hc : (2 : ℚ) ≤ (n : ℚ) := by exact_mod_cast h2
      linarith
    have hnum : (0 : ℚ) ≤ (i : ℚ) * (b - a) :=
      mul_nonneg (Nat.cast_nonneg i) (by linarith)
    have := div_nonneg hnum (le_of_lt hden)
    linarith

theorem linspace_const (a : ℚ) (n : ℕ) : linspace a a n = List.replicate n a := by
  by_cases h0 : n = 0
  · simp [linspace, h0]
  by_cases h1 : n = 1
  · simp [linspace, h1, List.replicate]
  · rw [List.eq_replicate_iff]
    refine ⟨linspace_length a a n, ?_⟩
    intro p hp
    simp only [linspace, if_neg h0, if_neg h1, List.mem_map, List.mem_range] at hp
    obtain ⟨i, _, rfl⟩ := hp
    ring

theorem linspace_one (a b : ℚ) : linspace a b 1 = [a] := by
  simp [linspace]

/-! ### Facts about `stagesOf` -/

theorem stagesOf_length (d : ℚ) (n : ℕ) :
    ∀ (k : ℕ) (l : List ℚ), (stagesOf d n k l).length = l.length
  | _, [] => rfl
  | k, p :: rest => by
    simp [stagesOf, stagesOf_length d n (k + 1) rest]

theorem stagesOf_map_stage_number (d : ℚ) (n : ℕ) :
    ∀ (k : ℕ) (l : List ℚ),
      (stagesOf d n k l).map TravelStage.stage_number = List.range' k l.length
  | _, [] => rfl
  | k, p :: rest => by
    simp [stagesOf, mkStage, List.range', stagesOf_map_stage_number d n (k + 1) rest]

theorem stagesOf_getElem? (d : ℚ) (n : ℕ) :
    ∀ (k : ℕ) (l : List ℚ) (i : ℕ),
      (stagesOf d n k l)[i]? = l[i]?.map (fun p => mkStage d n (k + i) p)
  | _, [], i => by simp [stagesOf]
  | k, p :: rest, 0 => by simp [stagesOf]
  | k, p :: rest, i + 1 => by
    simp only [stagesOf, List.getElem?_cons_succ]
    rw [stagesOf_getElem? d n (k + 1) rest i]
    have harith : k + 1 + i = k + (i + 1) := by omega
    rw [harith]

theorem mem_stagesOf (d : ℚ) (n : ℕ) :
    ∀ (k : ℕ) (l : List ℚ) (s : TravelStage), s ∈ stagesOf d n k l →
      ∃ k' p, p ∈ l ∧ s = mkStage d n k' p
  | k, [], s => by simp [stagesOf]
  | k, p :: rest, s => by
    intro hs
    rcases List.mem_cons.mp hs with h | h
    · exact ⟨k, p, List.mem_cons_self p rest, h⟩
    · obtain ⟨k', q, hq, hsq⟩ := mem_stagesOf d n (k + 1) rest s h
      exact ⟨k', q, List.mem_cons_of_mem p hq, hsq⟩

theorem stagesOf_map_distance_covered (d : ℚ) (n : ℕ) :
    ∀ (k : ℕ) (l : List ℚ),
      (stagesOf d n k l).map TravelStage.distance_covered =
        l.map (fun p => pyRound 2 (actualDistance d n p))
  | _, [] => rfl
  | k, p :: rest => by
    simp [stagesOf, mkStage, stagesOf_map_distance_covered d n (k + 1) rest]

/-! ### Consequences of valid inputs -/

theorem profile_pos (mn mx : ℚ) (n : ℕ) (profile : List ℚ) (hmn : 0.1 ≤ mn)
    (hmm : mn ≤ mx) (hperm : profile.Perm (linspace mn mx n)) :
    ∀ p ∈ profile, 0 < p := by
  intro p hp
  have hp2 : p ∈ linspace mn mx n := hperm.mem_iff.mp hp
  have h := linspace_mem_le mn mx n hmm p hp2
  have h01 : (0.1 : ℚ) = 1 / 10 := by norm_num
  rw [h01] at hmn
  linarith

theorem profile_length (mn mx : ℚ) (n : ℕ) (profile : List ℚ)
    (hperm : profile.Perm (linspace mn mx n)) : profile.length = n := by
  rw [hperm.length_eq, linspace_length]

theorem actualDistance_ge (d : ℚ) (n : ℕ) (p : ℚ) (hd : 0 < d) (hn : n ≠ 0)
    (hp : 0 < p) : d / n ≤ actualDistance d n p := by
  have hnQ : (0 : ℚ) < (n : ℚ) := by exact_mod_cast Nat.pos_of_ne_zero hn
  have hsd : 0 < d / (n : ℚ) := div_pos hd hnQ
  have hfac : 1 ≤ expansionFactor d n p := by
    rw [expansionFactor]
    have hmpc : (0 : ℚ) < MPC_TO_LY := by norm_num [MPC_TO_LY]
    have h1 : 0 ≤ HUBBLE_CONSTANT * (d / (n : ℚ) / MPC_TO_LY) := by
      rw [HUBBLE_CONSTANT]
      positivity
    have hc : (0 : ℚ) < SPEED_OF_LIGHT := by norm_num [SPEED_OF_LIGHT]
    have h2 : (0 : ℚ) < p / 100 * SPEED_OF_LIGHT := by positivity
    have h3 := div_nonneg h1 h2.le
    linarith
  calc d / (n : ℚ) = d / (n : ℚ) * 1 := (mul_one _).symm
    _ ≤ d / (n : ℚ) * expansionFactor d n p := mul_le_mul_of_nonneg_left hfac hsd.le
    _ = actualDistance d n p := rfl

theorem sum_actualDistance_ge (d : ℚ) (n : ℕ) (profile : List ℚ) (hd : 0 < d)
    (hn : n ≠ 0) (hlen : profile.length = n) (hp : ∀ p ∈ profile, 0 < p) :
    d ≤ (profile.map (actualDistance d n)).sum := by
  have hnQ : (0 : ℚ) < (n : ℚ) := by exact_mod_cast Nat.pos_of_ne_zero hn
  have step : ∀ l : List ℚ, (∀ p ∈ l, 0 < p) →
      (l.length : ℚ) * (d / n) ≤ (l.map (actualDistance d n)).sum := by
    intro l
    induction l with
    | nil => simp
    | cons q t ih =>
      intro hl
      have hq : 0 < q := hl q (List.mem_cons_self q t)
      have ht : ∀ p ∈ t, 0 < p := fun p hp2 => hl p (List.mem_cons_of_mem q hp2)
      have h1 := actualDistance_ge d n q hd hn hq
      have h2 := ih ht
      simp only [List.length_cons, List.map_cons, List.sum_cons]
      push_cast
      linarith
  have h := step profile hp
  rw [hlen] at h
  have heq : (n : ℚ) * (d / n) = d := by field_simp
  linarith

/-! ### Sums of rounded values versus rounded sums -/

theorem sum_map_pyRound_eq (xs : List ℚ) :
    (xs.map (pyRound 2)).sum =
      ((xs.map (fun x => round (x * 10 ^ 2))).sum : ℚ) / 10 ^ 2 := by
  induction xs with
  | nil => simp
  | cons x t ih =>
    simp only [List.map_cons, List.sum_cons, ih, pyRound]
    push_cast
    ring

theorem sum_pyRound_sub_le (xs : List ℚ) :
    (xs.map (pyRound 2)).sum - xs.sum ≤ (xs.length : ℚ) * (1 / 200) := by
  induction xs with
  | nil => simp
  | cons x t ih =>
    have h := pyRound_sub_le 2 x
    have h200 : (1 : ℚ) / (2 * 10 ^ 2) = 1 / 200 := by norm_num
    rw [h200] at h
    simp only [List.map_cons, List.sum_cons, List.length_cons]
    push_cast
    linarith

theorem neg_le_sum_pyRound_sub (xs : List ℚ) :
    -((xs.length : ℚ) * (1 / 200)) ≤ (xs.map (pyRound 2)).sum - xs.sum := by
  induction xs with
  | nil => simp
  | cons x t ih =>
    have h := neg_lt_pyRound_sub 2 x
    have h200 : (1 : ℚ) / (2 * 10 ^ 2) = 1 / 200 := by norm_num
    rw [h200] at h
    simp only [List.map_cons, List.sum_cons, List.length_cons]
    push_cast
    linarith

theorem neg_lt_sum_pyRound_sub (xs : List ℚ) (hne : xs ≠ []) :
    -((xs.length : ℚ) * (1 / 200)) < (xs.map (pyRound 2)).sum - xs.sum := by
  cases xs with
  | nil => exact absurd rfl hne
  | cons x t =>
    have h := neg_lt_pyRound_sub 2 x
    have h200 : (1 : ℚ) / (2 * 10 ^ 2) = 1 / 200 := by norm_num
    rw [h200] at h
    have ht := neg_le_sum_pyRound_sub t
    simp only [List.map_cons, List.sum_cons, List.length_cons]
    push_cast
    linarith

theorem abs_sum_pyRound_sub_pyRound_sum (xs : List ℚ) :
    |(xs.map (pyRound 2)).sum - pyRound 2 xs.sum| ≤ (xs.length : ℚ) * (1 / 200) := by
  rcases eq_or_ne xs [] with rfl | hne
  · simp [pyRound]
  · have h200 : (1 : ℚ) / (2 * 10 ^ 2) = 1 / 200 := by norm_num
    obtain ⟨z, hz⟩ : ∃ z : ℤ,
        (xs.map (fun x => round (x * 10 ^ 2))).sum - round (xs.sum * 10 ^ 2) = z := ⟨_, rfl⟩
    have hTR : (xs.map (pyRound 2)).sum - pyRound 2 xs.sum = (z : ℚ) / 10 ^ 2 := by
      rw [sum_map_pyRound_eq, pyRound, ← hz]
      push_cast
      ring
    have ha := sum_pyRound_sub_le xs
    have hb := neg_lt_sum_pyRound_sub xs hne
    have hc := pyRound_sub_le 2 xs.sum
    have hd := neg_lt_pyRound_sub 2 xs.sum
    rw [h200] at hc hd
    have h1 : (xs.map (pyRound 2)).sum - pyRound 2 xs.sum <
        ((xs.length : ℚ) + 1) * (1 / 200) := by linarith
    have h2 : -(((xs.length : ℚ) + 1) * (1 / 200)) <
        (xs.map (pyRound 2)).sum - pyRound 2 xs.sum := by linarith
    have habs : |(z : ℚ)| < ((xs.length : ℚ) + 1) * (1 / 2) := by
      have h3 := abs_lt.mpr ⟨h2, h1⟩
      rw [hTR, abs_div] at h3
      have h4 : |((10 : ℚ) ^ 2)| = 100 := by norm_num
      rw [h4] at h3
      have h5 := (div_lt_iff (by norm_num : (0 : ℚ) < 100)).mp h3
      calc |(z : ℚ)| < ((xs.length : ℚ) + 1) * (1 / 200) * 100 := h5
        _ = ((xs.length : ℚ) + 1) * (1 / 2) := by ring
    have hint : 2 * |z| ≤ (xs.length : ℤ) := by
      have h6 : (2 : ℚ) * |(z : ℚ)| < (xs.length : ℚ) + 1 := by linarith
      have h8 : 2 * |z| < (xs.length : ℤ) + 1 := by exact_mod_cast h6
      omega
    rw [hTR, abs_div]
    have h4 : |((10 : ℚ) ^ 2)| = 100 := by norm_num
    rw [h4, div_le_iff (by norm_num : (0 : ℚ) < 100)]
    have h9 : (2 : ℚ) * |(z : ℚ)| ≤ (xs.length : ℚ) := by exact_mod_cast hint
    linarith

theorem stageCalc_error (d : ℚ) (n : ℕ) (p : ℚ) (e : SimError)
    (h : stageCalc d n p = .error e) : e = .zeroDivisionError := by
  rw [stageCalc] at h
  by_cases hn : n = 0
  · rw [if_pos hn] at h
    simp only [Except.error.injEq] at h
    exact h.symm
  · rw [if_neg hn] at h
    by_cases hp : p = 0
    · rw [if_pos hp] at h
      simp only [Except.error.injEq] at h
      exact h.symm
    · rw [if_neg hp] at h
      exact absurd h (by simp)

theorem runStages_error (d : ℚ) (n : ℕ) :
    ∀ (l : List ℚ) (k : ℕ) (st : SimState) (e : SimError),
      runStages d n l k st = .error e → e = .zeroDivisionError
  | [], k, st, e => by simp [runStages]
  | p :: rest, k, st, e => by
    intro h
    rw [runStages] at h
    rcases hc : stageCalc d n p with e2 | trip
    · rw [hc] at h
      simp only [Except.error.injEq] at h
      rw [← h]
      exact stageCalc_error d n p e2 hc
    · rw [hc] at h
      exact runStages_error d n rest (k + 1) _ e h

theorem expansionFactor_gt_one (d : ℚ) (n : ℕ) (p : ℚ) (hd : 0 < d) (hn : n ≠ 0)
    (hp : 0 < p) : 1 < expansionFactor d n p := by
  rw [expansionFactor]
  have hnQ : (0 : ℚ) < (n : ℚ) := by exact_mod_cast Nat.pos_of_ne_zero hn
  have hmpc : (0 : ℚ) < MPC_TO_LY := by norm_num [MPC_TO_LY]
  have hc : (0 : ℚ) < SPEED_OF_LIGHT := by norm_num [SPEED_OF_LIGHT]
  have h1 : 0 < HUBBLE_CONSTANT * (d / (n : ℚ) / MPC_TO_LY) := by
    rw [HUBBLE_CONSTANT]
    positivity
  have h2 : (0 : ℚ) < p / 100 * SPEED_OF_LIGHT := by positivity
  have := div_pos h1 h2
  linarith

/-! ### The claims -/

/-- C3: for every call with valid inputs, the returned report has exactly
`num_stages` stages and their `stage_number` fields, in sequence order, are
exactly `1, 2, …, num_stages`. -/
theorem C3_stage_count_and_indices (dest mid : String) (d : ℚ) (n : ℕ) (mn mx : ℚ)
    (profile : List ℚ) (hd : 0 < d) (hn : 1 ≤ n) (hmn : 0.1 ≤ mn) (hmm : mn ≤ mx)
    (hmx : mx ≤ 100) (hperm : profile.Perm (linspace mn mx n)) :
    (simulate_interstellar_travel dest d mid n mn mx profile).map
        (fun r => (r.stages.length, r.stages.map TravelStage.stage_number)) =
      .ok (n, List.range' 1 n) := by
  have hpos := profile_pos mn mx n profile hmn hmm hperm
  have hlen := profile_length mn mx n profile hperm
  have hne : ∀ p ∈ profile, p ≠ 0 := fun p hp => ne_of_gt (hpos p hp)
  rw [simulate_ok dest mid d n mn mx profile ⟨hmn, hmm, hmx⟩ (by omega) (ne_of_gt hd) hne]
  simp only [Except.map, stagesOf_length, stagesOf_map_stage_number, hlen]

/-- Witness for C3 at destination distance 100 ly, 3 stages, speeds 1–2 %. -/
theorem C3_witness :
    (simulate_interstellar_travel "Vega" 100 "V-1" 3 1 2 (linspace 1 2 3)).map
        (fun r => (r.stages.length, r.stages.map TravelStage.stage_number)) =
      .ok (3, List.range' 1 3) :=
  C3_stage_count_and_indices "Vega" "V-1" 100 3 1 2 (linspace 1 2 3) (by norm_num)
    (by norm_num) (by norm_num) (by norm_num) (by norm_num) (List.Perm.refl _)

/-- C5: the simulator signals the speed-range `ValueError` (and produces no
report) exactly when the bounds violate `0.1 ≤ min_speed ≤ max_speed ≤ 100`;
this covers the spec instances `min_speed = 0.05` and
`min_speed = 80, max_speed = 50`. -/
theorem C5_speed_range_validation (dest mid : String) (d : ℚ) (n : ℕ) (mn mx : ℚ)
    (profile : List ℚ) :
    simulate_interstellar_travel dest d mid n mn mx profile =
        .error .invalidSpeedRange ↔
      ¬(0.1 ≤ mn ∧ mn ≤ mx ∧ mx ≤ 100) := by
  rw [simulate_interstellar_travel]
  by_cases hv : 0.1 ≤ mn ∧ mn ≤ mx ∧ mx ≤ 100
  · rw [if_pos hv]
    constructor
    · intro h
      exfalso
      rcases hr : runStages d n profile 1 ⟨[], d, 0, 0⟩ with e | st
      · rw [hr] at h
        simp only [Except.error.injEq] at h
        have hz := runStages_error d n profile 1 ⟨[], d, 0, 0⟩ e hr
        rw [h] at hz
        exact SimError.noConfusion hz
      · rw [hr] at h
        by_cases hd0 : d = 0
        · simp [hd0] at h
        · simp [hd0] at h
    · intro hcon
      exact absurd hv hcon
  · rw [if_neg hv]
    simp [hv]

/-- C10: with `num_stages = 0`, valid speed bounds and a positive distance,
the simulator raises nothing and returns a report with no stages, zero
totals and `expansion_addition = -100`. -/
theorem C10_zero_stages (dest mid : String) (d mn mx : ℚ) (profile : List ℚ)
    (hd : 0 < d) (hmn : 0.1 ≤ mn) (hmm : mn ≤ mx) (hmx : mx ≤ 100)
    (hperm : profile.Perm (linspace mn mx 0)) :
    simulate_interstellar_travel dest d mid 0 mn mx profile =
      .ok ⟨dest, d, mid, [], 0, 0, -100⟩ := by
  have hprofile : profile = [] := by
    have h0 : linspace mn mx 0 = [] := by simp [linspace]
    rw [h0] at hperm
    exact List.perm_nil.mp hperm
  subst hprofile
  rw [simulate_interstellar_travel, if_pos ⟨hmn, hmm, hmx⟩]
  simp only [runStages, if_neg (ne_of_gt hd)]
  have h1 : pyRound 2 (0 : ℚ) = 0 := by simp [pyRound]
  have h2 : pyRound 4 (((0 : ℚ) / d - 1) * 100) = -100 := by
    rw [zero_div]
    norm_num [pyRound, round_eq]
  simp only [Except.ok.injEq, MissionReport.mk.injEq]
  exact ⟨trivial, trivial, trivial, trivial, h1, h1, h2⟩

/-- Witness for C10 at distance 42 ly, speeds 1–2 %, zero stages. -/
theorem C10_witness :
    simulate_interstellar_travel "Altair" 42 "A-0" 0 1 2 [] =
      .ok ⟨"Altair", 42, "A-0", [], 0, 0, -100⟩ :=
  C10_zero_stages "Altair" "A-0" 42 1 2 [] (by norm_num) (by norm_num) (by norm_num)
    (by norm_num) (by simp [linspace])

/-- C6 counterexample: at `distance_ly = -10` with valid speed bounds the code
returns a report (its `destination` field is readable), so no `InvalidDistance`
error is signalled for nonpositive distances. -/
theorem C6_counterexample :
    (simulate_interstellar_travel "Nowhere" (-10) "NEG-1" 1 1 1 [1]).map
        (fun r => r.destination) = .ok "Nowhere" := by
  rw [simulate_ok "Nowhere" "NEG-1" (-10) 1 1 1 [1] (by norm_num) (by norm_num)
    (by norm_num) (by norm_num)]
  rfl

/-- C6 (amended): the code performs no distance validation.  With otherwise
valid inputs, `distance_ly = 0` raises a `ZeroDivisionError` at the
`expansion_impact` division (not an `InvalidDistance` error), while
`distance_ly < 0` raises nothing and returns a report carrying the negative
distance. -/
theorem C6_amended_no_distance_validation (dest mid : String) (d : ℚ) (n : ℕ)
    (mn mx : ℚ) (profile : List ℚ) (hn : 1 ≤ n) (hmn : 0.1 ≤ mn) (hmm : mn ≤ mx)
    (hmx : mx ≤ 100) (hperm : profile.Perm (linspace mn mx n)) :
    (d = 0 → simulate_interstellar_travel dest d mid n mn mx profile =
        .error .zeroDivisionError) ∧
    (d < 0 → (simulate_interstellar_travel dest d mid n mn mx profile).map
        (fun r => r.distance) = .ok d) := by
  have hpos := profile_pos mn mx n profile hmn hmm hperm
  have hne : ∀ p ∈ profile, p ≠ 0 := fun p hp => ne_of_gt (hpos p hp)
  constructor
  · intro hd0
    subst hd0
    rw [simulate_interstellar_travel, if_pos ⟨hmn, hmm, hmx⟩]
    rw [runStages_eq 0 n (by omega) profile hne 1]
    simp
  · intro hdneg
    rw [simulate_ok dest mid d n mn mx profile ⟨hmn, hmm, hmx⟩ (by omega)
      (ne_of_lt hdneg) hne]
    simp [Except.map]

/-- Witness for the amended C6 at distance 0 (first conjunct applies). -/
theorem C6_amended_witness :
    ((0 : ℚ) = 0 → simulate_interstellar_travel "X" 0 "M" 1 1 1 [1] =
        .error .zeroDivisionError) ∧
    ((0 : ℚ) < 0 → (simulate_interstellar_travel "X" 0 "M" 1 1 1 [1]).map
        (fun r => r.distance) = .ok 0) :=
  C6_amended_no_distance_validation "X" "M" 0 1 1 1 [1] (by norm_num) (by norm_num)
    (by norm_num) (by norm_num) (by simp [linspace_one])

/-- C1 counterexample: at `distance_ly = 1.004` with one stage at 0.1 % of
light speed, the reported `total_distance` (rounded to 2 decimals) is 1.00,
strictly below `distance = 1.004`. -/
theorem C1_counterexample :
    (simulate_interstellar_travel "Proxima" (251 / 250) "C-1" 1 (1 / 10) (1 / 10)
        [1 / 10]).map (fun r => decide (r.distance ≤ r.total_distance)) =
      .ok false := by
  rw [simulate_ok "Proxima" "C-1" (251 / 250) 1 (1 / 10) (1 / 10) [1 / 10]
    (by norm_num) (by norm_num) (by norm_num) (by norm_num)]
  simp only [Except.map, List.map_cons, List.map_nil, List.sum_cons, List.sum_nil,
    add_zero, Except.ok.injEq]
  rw [decide_eq_false_iff_not]
  norm_num [actualDistance, expansionFactor, pyRound, round_eq,
    SPEED_OF_LIGHT, HUBBLE_CONSTANT, MPC_TO_LY]

/-- C1 (amended): for valid inputs the unrounded expansion-corrected total is
at least the requested distance, so the reported `total_distance` (that total
rounded to 2 decimals) is at least `report.distance - 0.005`; the 2-decimal
rounding can dip below the raw distance by at most half a rounding unit. -/
theorem C1_amended_total_distance (dest mid : String) (d : ℚ) (n : ℕ) (mn mx : ℚ)
    (profile : List ℚ) (hd : 0 < d) (hn : 1 ≤ n) (hmn : 0.1 ≤ mn) (hmm : mn ≤ mx)
    (hmx : mx ≤ 100) (hperm : profile.Perm (linspace mn mx n)) :
    ∃ rep, simulate_interstellar_travel dest d mid n mn mx profile = .ok rep ∧
      d ≤ (profile.map (actualDistance d n)).sum ∧
      rep.distance - 1 / 200 ≤ rep.total_distance := by
  have hpos := profile_pos mn mx n profile hmn hmm hperm
  have hlen := profile_length mn mx n profile hperm
  have hne : ∀ p ∈ profile, p ≠ 0 := fun p hp => ne_of_gt (hpos p hp)
  have hA := sum_actualDistance_ge d n profile hd (by omega) hlen hpos
  refine ⟨_, simulate_ok dest mid d n mn mx profile ⟨hmn, hmm, hmx⟩ (by omega)
    (ne_of_gt hd) hne, hA, ?_⟩
  have hr := neg_lt_pyRound_sub 2 ((profile.map (actualDistance d n)).sum)
  have h200 : (1 : ℚ) / (2 * 10 ^ 2) = 1 / 200 := by norm_num
  rw [h200] at hr
  dsimp only
  linarith

/-- Witness for the amended C1 at distance 100 ly, 2 stages, speeds 1–2 %. -/
theorem C1_amended_witness :
    ∃ rep, simulate_interstellar_travel "Sirius" 100 "S-1" 2 1 2 (linspace 1 2 2) =
        .ok rep ∧
      100 ≤ ((linspace 1 2 2).map (actualDistance 100 2)).sum ∧
      rep.distance - 1 / 200 ≤ rep.total_distance :=
  C1_amended_total_distance "Sirius" "S-1" 100 2 1 2 (linspace 1 2 2) (by norm_num)
    (by norm_num) (by norm_num) (by norm_num) (by norm_num) (List.Perm.refl _)

/-- C2: for every stage of every valid call, the recorded stage values come
from the spec formulas: `stage_distance = distance_ly / num_stages` (equal
partition, independent of speed), `distance_mpc = stage_distance / MPC_TO_LY`,
`expansion_speed = HUBBLE_CONSTANT * distance_mpc`,
`expansion_factor = 1 + expansion_speed / (speed_fraction * SPEED_OF_LIGHT)`,
`actual_distance = stage_distance * expansion_factor`, and
`stage_time = actual_distance / speed_fraction`, where `speed_fraction` is
the stage speed percentage divided by 100; the stored fields are these values
at the code's rounding precisions. -/
theorem C2_stage_formulas (dest mid : String) (d : ℚ) (n : ℕ) (mn mx : ℚ)
    (profile : List ℚ) (hd : 0 < d) (hn : 1 ≤ n) (hmn : 0.1 ≤ mn) (hmm : mn ≤ mx)
    (hmx : mx ≤ 100) (hperm : profile.Perm (linspace mn mx n)) :
    ∃ rep, simulate_interstellar_travel dest d mid n mn mx profile = .ok rep ∧
      ∀ i p, profile[i]? = some p →
        rep.stages[i]? = some
          (TravelStage.mk (i + 1) (pyRound 2 p)
           (pyRound 2 (d / (n : ℚ) *
             (1 + HUBBLE_CONSTANT * (d / (n : ℚ) / MPC_TO_LY) /
               (p / 100 * SPEED_OF_LIGHT))))
           (pyRound 2 (d / (n : ℚ) *
             (1 + HUBBLE_CONSTANT * (d / (n : ℚ) / MPC_TO_LY) /
               (p / 100 * SPEED_OF_LIGHT)) / (p / 100)))
           (pyRound 4 ((1 + HUBBLE_CONSTANT * (d / (n : ℚ) / MPC_TO_LY) /
             (p / 100 * SPEED_OF_LIGHT) - 1) * 100))) := by
  have hpos := profile_pos mn mx n profile hmn hmm hperm
  have hne : ∀ p ∈ profile, p ≠ 0 := fun p hp => ne_of_gt (hpos p hp)
  refine ⟨_, simulate_ok dest mid d n mn mx profile ⟨hmn, hmm, hmx⟩ (by omega)
    (ne_of_gt hd) hne, ?_⟩
  intro i p hip
  dsimp only
  rw [stagesOf_getElem? d n 1 profile i, hip]
  have harith : 1 + i = i + 1 := by omega
  rw [harith]
  rfl

/-- Witness for C2 at distance 100 ly, 2 stages, speeds 1–2 %. -/
theorem C2_witness :
    ∃ rep, simulate_interstellar_travel "Rigel" 100 "R-1" 2 1 2 (linspace 1 2 2) =
        .ok rep ∧
      ∀ i p, (linspace 1 2 2)[i]? = some p →
        rep.stages[i]? = some
          (TravelStage.mk (i + 1) (pyRound 2 p)
           (pyRound 2 ((100 : ℚ) / ((2 : ℕ) : ℚ) *
             (1 + HUBBLE_CONSTANT * ((100 : ℚ) / ((2 : ℕ) : ℚ) / MPC_TO_LY) /
               (p / 100 * SPEED_OF_LIGHT))))
           (pyRound 2 ((100 : ℚ) / ((2 : ℕ) : ℚ) *
             (1 + HUBBLE_CONSTANT * ((100 : ℚ) / ((2 : ℕ) : ℚ) / MPC_TO_LY) /
               (p / 100 * SPEED_OF_LIGHT)) / (p / 100)))
           (pyRound 4 ((1 + HUBBLE_CONSTANT * ((100 : ℚ) / ((2 : ℕ) : ℚ) / MPC_TO_LY) /
             (p / 100 * SPEED_OF_LIGHT) - 1) * 100))) :=
  C2_stage_formulas "Rigel" "R-1" 100 2 1 2 (linspace 1 2 2) (by norm_num)
    (by norm_num) (by norm_num) (by norm_num) (by norm_num) (List.Perm.refl _)

/-- C7 counterexample: at distance 1 000 000 ly with a single stage at 10 % of
light speed, the single stage's `distance_covered` is the expansion-adjusted
1 000 715.9 ly, not the nominal `distance_ly`. -/
theorem C7_counterexample :
    (simulate_interstellar_travel "Tau" 1000000 "T-1" 1 10 10 [10]).map
        (fun r => decide (r.stages.map TravelStage.distance_covered =
          [r.distance])) = .ok false := by
  rw [simulate_ok "Tau" "T-1" 1000000 1 10 10 [10] (by norm_num) (by norm_num)
    (by norm_num) (by norm_num)]
  simp only [Except.map, Except.ok.injEq]
  rw [decide_eq_false_iff_not]
  intro h
  simp only [stagesOf, stagesOf_length, mkStage, List.map_cons, List.map_nil,
    List.cons.injEq] at h
  have h1 := h.1
  rw [actualDistance, expansionFactor] at h1
  norm_num [pyRound, round_eq, SPEED_OF_LIGHT, HUBBLE_CONSTANT, MPC_TO_LY] at h1

/-- C7 (amended): with `num_stages = 1` and valid inputs the report has a
single stage whose nominal pre-expansion distance `distance_ly / 1` is the
full `distance_ly`, but its `distance_covered` field records the
expansion-adjusted distance rounded to 2 decimals, whose unrounded value
strictly exceeds `distance_ly`. -/
theorem C7_amended_single_stage (dest mid : String) (d mn mx : ℚ)
    (profile : List ℚ) (hd : 0 < d) (hmn : 0.1 ≤ mn) (hmm : mn ≤ mx)
    (hmx : mx ≤ 100) (hperm : profile.Perm (linspace mn mx 1)) :
    ∃ rep, simulate_interstellar_travel dest d mid 1 mn mx profile = .ok rep ∧
      d / ((1 : ℕ) : ℚ) = d ∧
      rep.stages.map TravelStage.distance_covered =
        [pyRound 2 (actualDistance d 1 mn)] ∧
      d < actualDistance d 1 mn := by
  have hprofile : profile = [mn] := by
    rw [linspace_one] at hperm
    exact List.perm_singleton.mp hperm
  subst hprofile
  have hmnpos : 0 < mn := by
    have h01 : (0.1 : ℚ) = 1 / 10 := by norm_num
    rw [h01] at hmn
    linarith
  have hne : ∀ p ∈ [mn], p ≠ 0 := by
    intro p hp
    rw [List.mem_singleton] at hp
    rw [hp]
    exact ne_of_gt hmnpos
  refine ⟨_, simulate_ok dest mid d 1 mn mx [mn] ⟨hmn, hmm, hmx⟩ (by omega)
    (ne_of_gt hd) hne, by simp, ?_, ?_⟩
  · dsimp only
    rw [stagesOf_map_distance_covered]
    rfl
  · have hf := expansionFactor_gt_one d 1 mn hd one_ne_zero hmnpos
    rw [actualDistance, Nat.cast_one, div_one]
    nlinarith

/-- Witness for the amended C7 at distance 1 000 000 ly, speed 10 %. -/
theorem C7_amended_witness :
    ∃ rep, simulate_interstellar_travel "Tau2" 1000000 "T-2" 1 10 10 [10] =
        .ok rep ∧
      (1000000 : ℚ) / ((1 : ℕ) : ℚ) = 1000000 ∧
      rep.stages.map TravelStage.distance_covered =
        [pyRound 2 (actualDistance 1000000 1 10)] ∧
      (1000000 : ℚ) < actualDistance 1000000 1 10 :=
  C7_amended_single_stage "Tau2" "T-2" 1000000 10 10 [10] (by norm_num)
    (by norm_num) (by norm_num) (by norm_num) (by simp [linspace_one])

/-- C8: when `min_speed = max_speed`, every stage of the returned report has
identical `speed_percentage`, `distance_covered`, `time_elapsed` and
`expansion_effect` fields, whatever permutation the shuffle produced. -/
theorem C8_equal_speeds_uniform_stages (dest mid : String) (d : ℚ) (n : ℕ)
    (mn : ℚ) (profile : List ℚ) (hd : 0 < d) (hn : 1 ≤ n) (hmn : 0.1 ≤ mn)
    (hmx : mn ≤ 100) (hperm : profile.Perm (linspace mn mn n)) :
    ∃ rep, simulate_interstellar_travel dest d mid n mn mn profile = .ok rep ∧
      ∀ s ∈ rep.stages, ∀ t ∈ rep.stages,
        s.speed_percentage = t.speed_percentage ∧
        s.distance_covered = t.distance_covered ∧
        s.time_elapsed = t.time_elapsed ∧
        s.expansion_effect = t.expansion_effect := by
  have hprofile : profile = List.replicate n mn := by
    rw [linspace_const] at hperm
    exact List.perm_replicate.mp hperm
  have hpos := profile_pos mn mn n profile hmn le_rfl hperm
  have hne : ∀ p ∈ profile, p ≠ 0 := fun p hp => ne_of_gt (hpos p hp)
  refine ⟨_, simulate_ok dest mid d n mn mn profile ⟨hmn, le_rfl, hmx⟩ (by omega)
    (ne_of_gt hd) hne, ?_⟩
  intro s hs t ht
  dsimp only at hs ht
  obtain ⟨k1, p1, hp1, rfl⟩ := mem_stagesOf d n 1 profile s hs
  obtain ⟨k2, p2, hp2, rfl⟩ := mem_stagesOf d n 1 profile t ht
  rw [hprofile] at hp1 hp2
  rw [List.eq_of_mem_replicate hp1, List.eq_of_mem_replicate hp2]
  exact ⟨rfl, rfl, rfl, rfl⟩

/-- Witness for C8 at distance 100 ly, 3 stages, speed 5 % everywhere. -/
theorem C8_witness :
    ∃ rep, simulate_interstellar_travel "Deneb" 100 "D-1" 3 5 5 (linspace 5 5 3) =
        .ok rep ∧
      ∀ s ∈ rep.stages, ∀ t ∈ rep.stages,
        s.speed_percentage = t.speed_percentage ∧
        s.distance_covered = t.distance_covered ∧
        s.time_elapsed = t.time_elapsed ∧
        s.expansion_effect = t.expansion_effect :=
  C8_equal_speeds_uniform_stages "Deneb" "D-1" 100 3 5 (linspace 5 5 3)
    (by norm_num) (by norm_num) (by norm_num) (by norm_num) (List.Perm.refl _)

/-- C4: the report's `expansion_addition` is the unrounded total actual
distance ratio `((total_actual / distance) - 1) * 100` rounded to 4 decimals,
while `total_time` and `total_distance` are rounded to 2 decimals; it
therefore equals `((total_distance / distance) - 1) * 100` up to the slack
the 2-decimal rounding of `total_distance` introduces. -/
theorem C4_expansion_addition (dest mid : String) (d : ℚ) (n : ℕ) (mn mx : ℚ)
    (profile : List ℚ) (hd : 0 < d) (hn : 1 ≤ n) (hmn : 0.1 ≤ mn) (hmm : mn ≤ mx)
    (hmx : mx ≤ 100) (hperm : profile.Perm (linspace mn mx n)) :
    ∃ rep, simulate_interstellar_travel dest d mid n mn mx profile = .ok rep ∧
      rep.total_distance = pyRound 2 ((profile.map (actualDistance d n)).sum) ∧
      rep.total_time = pyRound 2 ((profile.map (stageTime d n)).sum) ∧
      rep.expansion_addition =
        pyRound 4 (((profile.map (actualDistance d n)).sum / d - 1) * 100) ∧
      |rep.expansion_addition - (rep.total_distance / rep.distance - 1) * 100| ≤
        1 / 20000 + 1 / (2 * d) := by
  have hpos := profile_pos mn mx n profile hmn hmm hperm
  have hne : ∀ p ∈ profile, p ≠ 0 := fun p hp => ne_of_gt (hpos p hp)
  refine ⟨_, simulate_ok dest mid d n mn mx profile ⟨hmn, hmm, hmx⟩ (by omega)
    (ne_of_gt hd) hne, rfl, rfl, rfl, ?_⟩
  dsimp only
  obtain ⟨A, hA⟩ : ∃ A : ℚ, (profile.map (actualDistance d n)).sum = A := ⟨_, rfl⟩
  rw [hA]
  have h1 : |pyRound 4 ((A / d - 1) * 100) - (A / d - 1) * 100| ≤ 1 / 20000 := by
    have h := abs_pyRound_sub_le 4 ((A / d - 1) * 100)
    have h0 : (1 : ℚ) / (2 * 10 ^ 4) = 1 / 20000 := by norm_num
    rw [h0] at h
    exact h
  have hkey : (A / d - 1) * 100 - (pyRound 2 A / d - 1) * 100 =
      (A - pyRound 2 A) * 100 / d := by
    field_simp
    ring
  have h3 : |A - pyRound 2 A| ≤ 1 / 200 := by
    have h := abs_pyRound_sub_le 2 A
    have h0 : (1 : ℚ) / (2 * 10 ^ 2) = 1 / 200 := by norm_num
    rw [h0] at h
    rw [abs_sub_comm]
    exact h
  have h2 : |(A / d - 1) * 100 - (pyRound 2 A / d - 1) * 100| ≤ 1 / (2 * d) := by
    rw [hkey, abs_div, abs_of_pos hd, abs_mul]
    have h100 : |(100 : ℚ)| = 100 := by norm_num
    rw [h100]
    have hnum : |A - pyRound 2 A| * 100 ≤ 1 / 2 := by
      calc |A - pyRound 2 A| * 100 ≤ 1 / 200 * 100 :=
            mul_le_mul_of_nonneg_right h3 (by norm_num)
        _ = 1 / 2 := by norm_num
    have hdiv : |A - pyRound 2 A| * 100 / d ≤ (1 / 2) / d :=
      div_le_div_of_nonneg_right hnum hd.le
    calc |A - pyRound 2 A| * 100 / d ≤ (1 / 2) / d := hdiv
      _ = 1 / (2 * d) := div_div 1 2 d
  calc |pyRound 4 ((A / d - 1) * 100) - (pyRound 2 A / d - 1) * 100|
      ≤ |pyRound 4 ((A / d - 1) * 100) - (A / d - 1) * 100| +
        |(A / d - 1) * 100 - (pyRound 2 A / d - 1) * 100| := abs_sub_le _ _ _
    _ ≤ 1 / 20000 + 1 / (2 * d) := add_le_add h1 h2

/-- Witness for C4 at distance 100 ly, 2 stages, speeds 1–2 %. -/
theorem C4_witness :
    ∃ rep, simulate_interstellar_travel "Lyra" 100 "L-1" 2 1 2 (linspace 1 2 2) =
        .ok rep ∧
      rep.total_distance = pyRound 2 (((linspace 1 2 2).map (actualDistance 100 2)).sum) ∧
      rep.total_time = pyRound 2 (((linspace 1 2 2).map (stageTime 100 2)).sum) ∧
      rep.expansion_addition =
        pyRound 4 ((((linspace 1 2 2).map (actualDistance 100 2)).sum / 100 - 1) * 100) ∧
      |rep.expansion_addition - (rep.total_distance / rep.distance - 1) * 100| ≤
        1 / 20000 + 1 / (2 * 100) :=
  C4_expansion_addition "Lyra" "L-1" 100 2 1 2 (linspace 1 2 2) (by norm_num)
    (by norm_num) (by norm_num) (by norm_num) (by norm_num) (List.Perm.refl _)

/-- C9: the sum of the stages' 2-decimal-rounded `distance_covered` values
differs from `total_distance` (the 2-decimal rounding of the unrounded
accumulation) by at most `num_stages * 0.005` light-years. -/
theorem C9_stage_sum_rounding (dest mid : String) (d : ℚ) (n : ℕ) (mn mx : ℚ)
    (profile : List ℚ) (hd : 0 < d) (hn : 1 ≤ n) (hmn : 0.1 ≤ mn) (hmm : mn ≤ mx)
    (hmx : mx ≤ 100) (hperm : profile.Perm (linspace mn mx n)) :
    ∃ rep, simulate_interstellar_travel dest d mid n mn mx profile = .ok rep ∧
      |(rep.stages.map TravelStage.distance_covered).sum - rep.total_distance| ≤
        (n : ℚ) * (1 / 200) := by
  have hpos := profile_pos mn mx n profile hmn hmm hperm
  have hlen := profile_length mn mx n profile hperm
  have hne : ∀ p ∈ profile, p ≠ 0 := fun p hp => ne_of_gt (hpos p hp)
  refine ⟨_, simulate_ok dest mid d n mn mx profile ⟨hmn, hmm, hmx⟩ (by omega)
    (ne_of_gt hd) hne, ?_⟩
  dsimp only
  rw [stagesOf_map_distance_covered]
  have key := abs_sum_pyRound_sub_pyRound_sum (profile.map (actualDistance d n))
  rw [List.length_map, hlen] at key
  rw [List.map_map] at key
  simpa [Function.comp] using key

/-- Witness for C9 at distance 100 ly, 2 stages, speeds 1–2 %. -/
theorem C9_witness :
    ∃ rep, simulate_interstellar_travel "Cygni" 100 "C-9" 2 1 2 (linspace 1 2 2) =
        .ok rep ∧
      |(rep.stages.map TravelStage.distance_covered).sum - rep.total_distance| ≤
        ((2 : ℕ) : ℚ) * (1 / 200) :=
  C9_stage_sum_rounding "Cygni" "C-9" 100 2 1 2 (linspace 1 2 2) (by norm_num)
    (by norm_num) (by norm_num) (by norm_num) (by norm_num) (List.Perm.refl _)

end InterstellarTravel
